import Mathlib

/-!
Verification of the HTML-processing module `bowl.py` of pymicrolib.

Shallow embedding notes:
* A Python `DOMNode` object carries tree data (`tag`, `attrs`, `children`) and
  its own lazy index cache. Child caches never influence an owner query, so the
  model separates the pure tree (`DOMNode`/`Children`) from one owner cache
  (`NodeState`, and `DOMDocument` for the document-scoped copy).
* Attribute values arriving from the tokenizer are `str` or `None`; user code
  may also supply a list of class tokens (the source handles `str`, `list`,
  and a stringified fallback). `AttrVal` covers these shapes.
* Python dicts are modelled as association lists with in-place update
  (`dictSet`, `mapAppendAt`) and `get` (`dget`).
* The tokenizer is CPython stdlib `html.parser` (external to this repository);
  only its event contract matters: it emits start/end/text/comment/reference/
  declaration events with tag names lowercased. The tree builder consumes a
  list of such events (`HEvent`).
* The builder mutates nodes through stack aliases: a new element is appended
  to its parent at start-tag time and then filled in place while it sits on
  the stack. The pure model keeps the open elements as a spine of `Frame`s
  (head = stack top) and performs the parent append when a frame is popped or
  at end of input (`collapse`); the parent receives no other child while a
  child is open, so the resulting tree and child order are identical.
* Python exceptions are modelled with `Except PyErr`. The source method
  `_CustomHTMLParser.handle_starttag` evaluates `tag not in VOID_TAGS`
  (line 248) but the module only defines `_VOID_TAGS` (line 229), so every
  start-tag event raises `NameError` in the real code; the model reproduces
  this.
-/

namespace Bowl

/-- Shapes an attribute value can take (tokenizer gives `str` or `None`;
user code may pre-supply a list of class tokens). -/
inductive AttrVal : Type where
  | s (v : String)
  | vNone
  | lst (l : List String)
deriving DecidableEq, Repr

/-- Python truthiness for the attribute values we model. -/
def truthy : AttrVal → Bool
  | .s v => v ≠ ""
  | .vNone => false
  | .lst l => !l.isEmpty

/-- `dict.get`: first binding for the key (a model dict holds one binding per
key, kept unique by the update operations below). -/
def dget {κ ν : Type} [DecidableEq κ] : List (κ × ν) → κ → Option ν
  | [], _ => none
  | (k2, v) :: rest, k => if k2 = k then some v else dget rest k

/-- `dict[k] = v`: replace the existing binding in place, else append. -/
def dictSet {κ ν : Type} [DecidableEq κ] : List (κ × ν) → κ → ν → List (κ × ν)
  | [], k, v => [(k, v)]
  | (k2, v2) :: rest, k, v =>
      if k2 = k then (k2, v) :: rest else (k2, v2) :: dictSet rest k v

/-- `if k not in m: m[k] = []` followed by `m[k].append(v)`. -/
def mapAppendAt {κ ν : Type} [DecidableEq κ] :
    List (κ × List ν) → κ → ν → List (κ × List ν)
  | [], k, v => [(k, [v])]
  | (k2, l) :: rest, k, v =>
      if k2 = k then (k2, l ++ [v]) :: rest else (k2, l) :: mapAppendAt rest k v

mutual
/-- `DOMNode`: tag, attrs, and ordered children (source lines 20-48). -/
inductive DOMNode : Type where
  | mk (tag : String) (attrs : List (String × AttrVal)) (children : Children)

/-- The ordered children sequence: each child is a `DOMNode` or a text string
(`List[Union[DOMNode, str]]` in the source). -/
inductive Children : Type where
  | nil
  | consN (n : DOMNode) (rest : Children)
  | consT (s : String) (rest : Children)
end

def DOMNode.tag : DOMNode → String
  | .mk t _ _ => t

def DOMNode.attrs : DOMNode → List (String × AttrVal)
  | .mk _ a _ => a

def DOMNode.children : DOMNode → Children
  | .mk _ _ c => c

/-- Append a node at the end of a children sequence. -/
def Children.snocN : Children → DOMNode → Children
  | .nil, n => .consN n .nil
  | .consN m rest, n => .consN m (rest.snocN n)
  | .consT s rest, n => .consT s (rest.snocN n)

/-- Append a text leaf at the end of a children sequence. -/
def Children.snocT : Children → String → Children
  | .nil, s => .consT s .nil
  | .consN m rest, s => .consN m (rest.snocT s)
  | .consT s2 rest, s => .consT s2 (rest.snocT s)

mutual
/-- Document order of the subtree rooted at a node: the node itself followed
by its element descendants, depth-first left-to-right. This is exactly the
visit order of the recursive `_build_*_index` traversals. -/
def preorder : DOMNode → List DOMNode
  | .mk t a cs => .mk t a cs :: preorderC cs

def preorderC : Children → List DOMNode
  | .nil => []
  | .consN c rest => preorder c ++ preorderC rest
  | .consT _ rest => preorderC rest
end

/-- Python string repetition `s * n`. -/
def strRepeat (s : String) : Nat → String
  | 0 => ""
  | n + 1 => s ++ strRepeat s n

/-- Python `str()` of the attribute values we model (used by f-strings in
`_render`; `str(None)` is `"None"`, a list prints with quoted items). -/
def pyStr : AttrVal → String
  | .s v => v
  | .vNone => "None"
  | .lst l =>
      "[" ++ String.intercalate ", " (l.map (fun x => "\x27" ++ x ++ "\x27")) ++ "]"

/-- The `key="value"` attribute text joined by spaces (source line 52). -/
def attrsText (attrs : List (String × AttrVal)) : String :=
  String.intercalate " " (attrs.map (fun p => p.1 ++ "=\"" ++ pyStr p.2 ++ "\""))

mutual
/-- `DOMNode._render` (source lines 50-64): indented open tag, children one
level deeper (text children on their own indented line), matching close tag,
all joined by newlines. -/
def DOMNode._render (n : DOMNode) (indent : Nat) : String :=
  match n with
  | .mk t a cs =>
      let space := strRepeat "  " indent
      let at_ := attrsText a
      let openTag := "<" ++ t ++ (if at_ = "" then "" else " " ++ at_) ++ ">"
      let closeTag := "</" ++ t ++ ">"
      String.intercalate "\n"
        ((space ++ openTag) :: renderParts cs indent ++ [space ++ closeTag])

/-- The list of rendered lines contributed by each child at a parent
indentation level (children render at `indent + 1`). -/
def renderParts (cs : Children) (indent : Nat) : List String :=
  match cs with
  | .nil => []
  | .consN c rest => DOMNode._render c (indent + 1) :: renderParts rest indent
  | .consT s rest => (strRepeat "  " (indent + 1) ++ s) :: renderParts rest indent
end

/-- Python whitespace characters recognised by `str.split()`. -/
def isPyWs (c : Char) : Bool :=
  c = ' ' || c = '\t' || c = '\n' || c = '\r' || c = '\x0b' || c = '\x0c'

/-- Worker for `pySplit`: walk the characters, collecting the current word
(reversed); whitespace closes a word, empty pieces are dropped. -/
def splitWsAux : List Char → List Char → List String
  | [], [] => []
  | [], cur => [String.mk cur.reverse]
  | c :: rest, cur =>
      if isPyWs c then
        match cur with
        | [] => splitWsAux rest []
        | _ => String.mk cur.reverse :: splitWsAux rest []
      else splitWsAux rest (c :: cur)

/-- Python `str.split()`: split on whitespace runs, discarding empty pieces. -/
def pySplit (s : String) : List String :=
  splitWsAux s.data []

/-- The class-token list of one node, as computed by `_build_class_index`
(source lines 103-116): a truthy `class` attribute is split on whitespace if a
string, taken as-is if a list, stringified otherwise; a falsy or missing
attribute contributes nothing. -/
def classTokens (n : DOMNode) : List String :=
  match dget n.attrs "class" with
  | some v =>
      if truthy v then
        match v with
        | .s str => pySplit str
        | .lst l => l
        | .vNone => [pyStr v]
      else []
  | none => []

/-- The id attribute considered by `_build_id_index` (source lines 91-94):
the raw `attrs.get("id")` value. -/
def idAttr (n : DOMNode) : Option AttrVal :=
  dget n.attrs "id"

mutual
/-- `_build_tag_index` (source lines 79-87) threading the map: visit the node
(ensure a list exists for its tag, append the node), then recurse into the
element children in order. -/
def build_tag_index (m : List (String × List DOMNode)) (n : DOMNode) :
    List (String × List DOMNode) :=
  match n with
  | .mk t a cs => build_tag_index_children (mapAppendAt m t (.mk t a cs)) cs

def build_tag_index_children (m : List (String × List DOMNode)) (cs : Children) :
    List (String × List DOMNode) :=
  match cs with
  | .nil => m
  | .consN c rest => build_tag_index_children (build_tag_index m c) rest
  | .consT _ rest => build_tag_index_children m rest
end

mutual
/-- `_build_id_index` (source lines 91-99): a truthy id attribute is written
into the map (`map[id_attr] = node`, later writes win), then the element
children are visited in order. The map is keyed by the attribute value; a
truthy list id would raise `TypeError` (unhashable) in Python, so theorems
about ids assume string-valued ids. -/
def build_id_index (m : List (AttrVal × DOMNode)) (n : DOMNode) :
    List (AttrVal × DOMNode) :=
  match n with
  | .mk t a cs =>
      match dget a "id" with
      | some v =>
          if truthy v then build_id_index_children (dictSet m v (.mk t a cs)) cs
          else build_id_index_children m cs
      | none => build_id_index_children m cs

def build_id_index_children (m : List (AttrVal × DOMNode)) (cs : Children) :
    List (AttrVal × DOMNode) :=
  match cs with
  | .nil => m
  | .consN c rest => build_id_index_children (build_id_index m c) rest
  | .consT _ rest => build_id_index_children m rest
end

mutual
/-- `_build_class_index` (source lines 103-123): append the node to the map
entry of every token occurrence of its class attribute, then recurse into the
element children in order. -/
def build_class_index (m : List (String × List DOMNode)) (n : DOMNode) :
    List (String × List DOMNode) :=
  match n with
  | .mk t a cs =>
      build_class_index_children
        ((classTokens (.mk t a cs)).foldl
          (fun acc tok => mapAppendAt acc tok (.mk t a cs)) m) cs

def build_class_index_children (m : List (String × List DOMNode)) (cs : Children) :
    List (String × List DOMNode) :=
  match cs with
  | .nil => m
  | .consN c rest => build_class_index_children (build_class_index m c) rest
  | .consT _ rest => build_class_index_children m rest
end

/-- One Python `DOMNode` object seen as an index owner: the tree it roots plus
its mutable cache fields (`_tag_to_node_map`, `_id_to_node_map`,
`_class_to_node_map` and the three `_has_*_index` flags, source lines 25-45). -/
structure NodeState : Type where
  node : DOMNode
  tag_to_node_map : List (String × List DOMNode)
  has_tag_index : Bool
  id_to_node_map : List (AttrVal × DOMNode)
  has_id_index : Bool
  class_to_node_map : List (String × List DOMNode)
  has_class_index : Bool

/-- `DOMNode.__init__` cache fields (source lines 33-45): empty maps, flags
down. -/
def NodeState.fresh (n : DOMNode) : NodeState :=
  ⟨n, [], false, [], false, [], false⟩

/-- `DOMNode.append_child` (source lines 47-48) on the owner object: the tree
gains a child node, the cache fields are untouched. -/
def NodeState.append_child_node (st : NodeState) (c : DOMNode) : NodeState :=
  { st with node := match st.node with
                    | .mk t a cs => .mk t a (cs.snocN c) }

/-- `DOMNode.get_by_tag` (source lines 128-131): build the tag index on first
call (setting the flag, since the top-level `_build_tag_index(self)` call ends
with `node is self`), then answer from the map. -/
def NodeState.get_by_tag (st : NodeState) (name : String) :
    Option (List DOMNode) × NodeState :=
  if st.has_tag_index then (dget st.tag_to_node_map name, st)
  else
    let st2 := { st with tag_to_node_map := build_tag_index [] st.node,
                         has_tag_index := true }
    (dget st2.tag_to_node_map name, st2)

/-- `DOMNode.get_by_id` (source lines 133-136). -/
def NodeState.get_by_id (st : NodeState) (name : String) :
    Option DOMNode × NodeState :=
  if st.has_id_index then (dget st.id_to_node_map (.s name), st)
  else
    let st2 := { st with id_to_node_map := build_id_index [] st.node,
                         has_id_index := true }
    (dget st2.id_to_node_map (.s name), st2)

/-- `DOMNode.get_by_class_name` (source lines 138-141). -/
def NodeState.get_by_class_name (st : NodeState) (name : String) :
    Option (List DOMNode) × NodeState :=
  if st.has_class_index then (dget st.class_to_node_map name, st)
  else
    let st2 := { st with class_to_node_map := build_class_index [] st.node,
                         has_class_index := true }
    (dget st2.class_to_node_map name, st2)

/-- `DOMDocument` (source lines 143-227): root node, page title, and its own
cache fields. `DOMDocument._build_tag_index` / `_build_id_index` /
`_build_class_index` (lines 168-212) duplicate the `DOMNode` builders verbatim
over `self.root`, so the pure builder functions are shared. -/
structure DOMDocument : Type where
  root : DOMNode
  page_title : Option String
  tag_to_node_map : List (String × List DOMNode)
  has_tag_index : Bool
  id_to_node_map : List (AttrVal × DOMNode)
  has_id_index : Bool
  class_to_node_map : List (String × List DOMNode)
  has_class_index : Bool

/-- `DOMDocument.__init__` (source lines 154-164). -/
def DOMDocument.fresh (root : DOMNode) (page_title : Option String) : DOMDocument :=
  ⟨root, page_title, [], false, [], false, [], false⟩

/-- Appending a child to the document root after construction (through
`doc.root.append_child`): the document cache fields are untouched. -/
def DOMDocument.append_child_node (d : DOMDocument) (c : DOMNode) : DOMDocument :=
  { d with root := match d.root with
                   | .mk t a cs => .mk t a (cs.snocN c) }

/-- `DOMDocument.get_by_tag` (source lines 214-217). -/
def DOMDocument.get_by_tag (d : DOMDocument) (name : String) :
    Option (List DOMNode) × DOMDocument :=
  if d.has_tag_index then (dget d.tag_to_node_map name, d)
  else
    let d2 := { d with tag_to_node_map := build_tag_index [] d.root,
                       has_tag_index := true }
    (dget d2.tag_to_node_map name, d2)

/-- `DOMDocument.get_by_id` (source lines 219-222). -/
def DOMDocument.get_by_id (d : DOMDocument) (name : String) :
    Option DOMNode × DOMDocument :=
  if d.has_id_index then (dget d.id_to_node_map (.s name), d)
  else
    let d2 := { d with id_to_node_map := build_id_index [] d.root,
                       has_id_index := true }
    (dget d2.id_to_node_map (.s name), d2)

/-- `DOMDocument.get_by_class_name` (source lines 224-227). -/
def DOMDocument.get_by_class_name (d : DOMDocument) (name : String) :
    Option (List DOMNode) × DOMDocument :=
  if d.has_class_index then (dget d.class_to_node_map name, d)
  else
    let d2 := { d with class_to_node_map := build_class_index [] d.root,
                       has_class_index := true }
    (dget d2.class_to_node_map name, d2)

/-- The fixed void-tag set (source lines 229-232). The start-tag handler was
meant to consult it, but references the undefined name `VOID_TAGS` instead. -/
def _VOID_TAGS : List String :=
  ["area", "base", "br", "col", "embed", "hr", "img",
   "input", "link", "meta", "source", "track", "wbr"]

/-- The event contract of the stdlib `html.parser` tokenizer (external to the
repository): start/end tags (names lowercased by the tokenizer), text runs,
and the event kinds the parser consumes and discards. -/
inductive HEvent : Type where
  | startTag (tag : String) (attrs : List (String × AttrVal))
  | endTag (tag : String)
  | data (s : String)
  | comment (s : String)
  | entityref (s : String)
  | charref (s : String)
  | decl (s : String)
deriving DecidableEq, Repr

/-- The Python exceptions reachable in the tree builder. -/
inductive PyErr : Type where
  | nameError (missing : String)
  | indexError
  | assertionError
deriving DecidableEq, Repr

/-- One open element on the stack: its tag, attributes, and the children
accumulated so far. -/
structure Frame : Type where
  tag : String
  attrs : List (String × AttrVal)
  children : Children

/-- The `DOMNode` an open element has become when it leaves the stack. -/
def Frame.finalize (f : Frame) : DOMNode :=
  .mk f.tag f.attrs f.children

/-- `_CustomHTMLParser` state: `node_stack` (head = `node_stack[-1]`, the
top), the candidate `title`, and whether the synthetic root has been popped
off the stack (tracks the object identity needed by the terminal
`assert self.root_node == self.node_stack[0]`). -/
structure PState : Type where
  stack : List Frame
  title : Option String
  rootPopped : Bool

/-- `_CustomHTMLParser.__init__` (source lines 235-240): the stack holds the
synthetic root `DOMNode("DOCUMENT_ROOT", {})`. -/
def initPS : PState :=
  ⟨[⟨"DOCUMENT_ROOT", [], .nil⟩], none, false⟩

/-- `handle_starttag` (source lines 242-249). The real method builds the
attribute dict, creates the node, appends it to `node_stack[-1]` — and then
evaluates `tag not in VOID_TAGS`. `VOID_TAGS` is undefined (the module defines
`_VOID_TAGS`), so a `NameError` is raised and propagates out of `feed`; the
state mutated so far becomes unreachable. On an empty stack, `node_stack[-1]`
would raise `IndexError` first. -/
def handle_starttag (st : PState) (tag : String)
    (attrs : List (String × AttrVal)) : Except PyErr PState :=
  match st.stack with
  | [] => .error .indexError
  | _ :: _ =>
      let _ := tag
      let _ := attrs
      .error (.nameError "VOID_TAGS")

/-- The effect of `node_stack.pop()` given the stack split into its top and
the remaining frames: the popped element becomes the last child of the new
top (the pure account of the append that Python performed at start-tag time);
popping the only frame removes the root from the stack. -/
def popFrame (st : PState) (top : Frame) (rest : List Frame) : PState :=
  match rest with
  | [] => { st with stack := [], rootPopped := true }
  | p :: ps =>
      { st with stack := { p with children := p.children.snocN top.finalize } :: ps }

/-- `handle_endtag` (source lines 251-254): pop exactly when the event name
equals `node_stack[-1].tag`, otherwise do nothing. `node_stack[-1]` on an
empty stack would raise `IndexError`. -/
def handle_endtag (st : PState) (tag : String) : Except PyErr PState :=
  match st.stack with
  | [] => .error .indexError
  | top :: rest =>
      if tag = top.tag then .ok (popFrame st top rest) else .ok st

/-- `handle_data` (source lines 256-260): when the stack is non-empty, record
the text as the title if the top element is a `title` and no title has been
captured yet, then append the text to the top element's children. -/
def handle_data (st : PState) (s : String) : PState :=
  match st.stack with
  | [] => st
  | top :: rest =>
      { st with
        title := if top.tag = "title" ∧ st.title = none then some s else st.title,
        stack := { top with children := top.children.snocT s } :: rest }

/-- Dispatch one tokenizer event to its handler; comments, entity and
character references, and declarations are consumed with no effect
(source lines 262-281). -/
def stepEvent (st : PState) (e : HEvent) : Except PyErr PState :=
  match e with
  | .startTag t a => handle_starttag st t a
  | .endTag t => handle_endtag st t
  | .data s => .ok (handle_data st s)
  | .comment _ => .ok st
  | .entityref _ => .ok st
  | .charref _ => .ok st
  | .decl _ => .ok st

/-- `feed`: process the events in order; a raised exception aborts the rest. -/
def runEvents (st : PState) : List HEvent → Except PyErr PState
  | [] => .ok st
  | e :: rest =>
      match stepEvent st e with
      | .error err => .error err
      | .ok st2 => runEvents st2 rest

/-- Fold the still-open frames into the tree they already form through the
parent links Python created at start-tag time: each unclosed element stays
the last child of its parent. -/
def collapse (top : Frame) : List Frame → DOMNode
  | [] => top.finalize
  | p :: ps => collapse { p with children := p.children.snocN top.finalize } ps

/-- `accumulate` (source lines 283-286): feed the events, then
`assert self.root_node == self.node_stack[0]` (an `IndexError` if the stack
is empty, an `AssertionError` if the bottom frame is no longer the original
root) and return the root with the captured title. -/
def accumulate (evs : List HEvent) : Except PyErr (DOMNode × Option String) :=
  match runEvents initPS evs with
  | .error e => .error e
  | .ok st =>
      match st.stack with
      | [] => .error .indexError
      | top :: rest =>
          if st.rootPopped then .error .assertionError
          else .ok (collapse top rest, st.title)

/-- `parse_document` (source lines 288-292): wrap the accumulated root in a
`DOMDocument` with the parser title. `if root:` is always true for a node
object, so a successful parse always returns a document. -/
def parse_document (evs : List HEvent) : Except PyErr (Option DOMDocument) :=
  match accumulate evs with
  | .error e => .error e
  | .ok (root, title) => .ok (some (DOMDocument.fresh root title))

/-! ### Specification-side helpers used to state the index properties -/

/-- A query result: an empty hit list is an absent result (`dict.get` misses),
a non-empty one is returned as-is. -/
def toOpt {α : Type} : List α → Option (List α)
  | [] => none
  | l => some l

/-- Left-biased choice between options. -/
def oElse {α : Type} : Option α → Option α → Option α
  | some x, _ => some x
  | none, o => o

/-- The last element of a list, if any. -/
def pyLast {α : Type} : List α → Option α
  | [] => none
  | [a] => some a
  | _ :: b :: l => pyLast (b :: l)

/-- Extend an optional hit list with further hits. -/
def mergeOpt {α : Type} : Option (List α) → List α → Option (List α)
  | none, [] => none
  | o, l => some (o.getD [] ++ l)

/-- The id-map key contributed by a node: its id attribute when truthy. -/
def idKeyOf (n : DOMNode) : Option AttrVal :=
  match idAttr n with
  | some v => if truthy v then some v else none
  | none => none

/-- How often a node is listed under one class token: once per occurrence of
the token in its class-token list. -/
def classOccs (l : List DOMNode) (c : String) : List DOMNode :=
  (l.map (fun x => List.replicate ((classTokens x).count c) x)).flatten

theorem mergeOpt_none_eq_toOpt {α : Type} (l : List α) :
    mergeOpt none l = toOpt l := by
  cases l <;> simp [mergeOpt, toOpt]

theorem mergeOpt_nil {α : Type} (o : Option (List α)) : mergeOpt o [] = o := by
  cases o <;> simp [mergeOpt]

theorem mergeOpt_assoc {α : Type} (o : Option (List α)) (l1 l2 : List α) :
    mergeOpt (mergeOpt o l1) l2 = mergeOpt o (l1 ++ l2) := by
  cases o with
  | none =>
      cases l1 with
      | nil => simp [mergeOpt]
      | cons a l => simp [mergeOpt]
  | some x => simp [mergeOpt]

theorem oElse_none_right {α : Type} (o : Option α) : oElse o none = o := by
  cases o <;> simp [oElse]

theorem oElse_assoc {α : Type} (a b c : Option α) :
    oElse (oElse a b) c = oElse a (oElse b c) := by
  cases a <;> simp [oElse]

theorem pyLast_cons {α : Type} (a : α) (l : List α) :
    pyLast (a :: l) = oElse (pyLast l) (some a) := by
  induction l generalizing a with
  | nil => simp [pyLast, oElse]
  | cons b l ih =>
      have h := ih b
      show pyLast (b :: l) = oElse (pyLast (b :: l)) (some a)
      rw [h]
      cases pyLast l <;> simp [oElse]

theorem pyLast_append {α : Type} (l1 l2 : List α) :
    pyLast (l1 ++ l2) = oElse (pyLast l2) (pyLast l1) := by
  induction l1 with
  | nil => simp [pyLast, oElse_none_right]
  | cons a l ih =>
      show pyLast (a :: (l ++ l2)) = _
      rw [pyLast_cons, ih, pyLast_cons, oElse_assoc]

theorem dget_mapAppendAt {κ ν : Type} [DecidableEq κ]
    (m : List (κ × List ν)) (k k2 : κ) (v : ν) :
    dget (mapAppendAt m k v) k2 =
      if k2 = k then some ((dget m k).getD [] ++ [v]) else dget m k2 := by
  induction m with
  | nil =>
      by_cases h : k2 = k
      · subst h; simp [mapAppendAt, dget]
      · have h2 : ¬ k = k2 := fun hh => h hh.symm
        simp [mapAppendAt, dget, h, h2]
  | cons p rest ih =>
      obtain ⟨pk, pl⟩ := p
      by_cases hk : pk = k
      · subst hk
        by_cases h2 : k2 = pk
        · subst h2; simp [mapAppendAt, dget]
        · have h2' : ¬ pk = k2 := fun hh => h2 hh.symm
          simp [mapAppendAt, dget, h2, h2']
      · by_cases h2 : pk = k2
        · subst h2
          simp [mapAppendAt, dget, hk]
        · simp [mapAppendAt, dget, hk, h2, ih]

theorem dget_dictSet {κ ν : Type} [DecidableEq κ]
    (m : List (κ × ν)) (k k2 : κ) (v : ν) :
    dget (dictSet m k v) k2 = if k2 = k then some v else dget m k2 := by
  induction m with
  | nil =>
      by_cases h : k2 = k
      · subst h; simp [dictSet, dget]
      · have h2 : ¬ k = k2 := fun hh => h hh.symm
        simp [dictSet, dget, h, h2]
  | cons p rest ih =>
      obtain ⟨pk, pv⟩ := p
      by_cases hk : pk = k
      · subst hk
        by_cases h2 : k2 = pk
        · subst h2; simp [dictSet, dget]
        · have h2' : ¬ pk = k2 := fun hh => h2 hh.symm
          simp [dictSet, dget, h2, h2']
      · by_cases h2 : pk = k2
        · subst h2
          simp [dictSet, dget, hk]
        · simp [dictSet, dget, hk, h2, ih]

mutual
/-- The tag map built by the preorder traversal holds, at every key, the prior
hits extended by the subtree nodes with that tag in document order. -/
theorem dget_build_tag_index (m : List (String × List DOMNode)) (n : DOMNode)
    (k : String) :
    dget (build_tag_index m n) k =
      mergeOpt (dget m k) ((preorder n).filter (fun x => x.tag == k)) := by
  match n with
  | .mk t a cs =>
      show dget (build_tag_index_children (mapAppendAt m t (.mk t a cs)) cs) k = _
      rw [dget_build_tag_index_children (mapAppendAt m t (.mk t a cs)) cs k]
      rw [dget_mapAppendAt]
      by_cases hk : k = t
      · subst hk
        have hmerge : (some ((dget m k).getD [] ++ [DOMNode.mk k a cs]))
            = mergeOpt (dget m k) [DOMNode.mk k a cs] := by
          cases dget m k <;> simp [mergeOpt]
        rw [if_pos rfl, hmerge, mergeOpt_assoc]
        simp [preorder, DOMNode.tag]
      · have hne : ¬ (t == k) = true := by
          simp [beq_iff_eq]
          exact fun hh => hk hh.symm
        simp only [if_neg hk]
        simp [preorder, DOMNode.tag, List.filter, hne]

theorem dget_build_tag_index_children (m : List (String × List DOMNode))
    (cs : Children) (k : String) :
    dget (build_tag_index_children m cs) k =
      mergeOpt (dget m k) ((preorderC cs).filter (fun x => x.tag == k)) := by
  match cs with
  | .nil => simp [build_tag_index_children, preorderC, mergeOpt_nil]
  | .consN c rest =>
      show dget (build_tag_index_children (build_tag_index m c) rest) k = _
      rw [dget_build_tag_index_children (build_tag_index m c) rest k]
      rw [dget_build_tag_index m c k]
      rw [mergeOpt_assoc]
      simp [preorderC, List.filter_append]
  | .consT s rest =>
      show dget (build_tag_index_children m rest) k = _
      rw [dget_build_tag_index_children m rest k]
      simp [preorderC]
end

mutual
/-- The id map built by the preorder traversal binds a key to the last node
in document order whose truthy id attribute equals it (later dict writes win),
falling back to the prior binding. -/
theorem dget_build_id_index (m : List (AttrVal × DOMNode)) (n : DOMNode)
    (k : AttrVal) :
    dget (build_id_index m n) k =
      oElse (pyLast ((preorder n).filter (fun x => idKeyOf x == some k)))
        (dget m k) := by
  match n with
  | .mk t a cs =>
      have hpre : preorder (.mk t a cs) = .mk t a cs :: preorderC cs := rfl
      have hkey : idKeyOf (.mk t a cs)
          = (match dget a "id" with
             | some v => if truthy v then some v else none
             | none => none) := rfl
      cases hid : dget a "id" with
      | none =>
          have hstep : build_id_index m (.mk t a cs)
              = build_id_index_children m cs := by
            simp [build_id_index, hid]
          have hdrop : idKeyOf (.mk t a cs) = none := by
            rw [hkey, hid]
          rw [hstep, dget_build_id_index_children m cs k, hpre]
          simp [List.filter, hdrop]
      | some v =>
          by_cases htr : truthy v = true
          · have hstep : build_id_index m (.mk t a cs)
                = build_id_index_children (dictSet m v (.mk t a cs)) cs := by
              simp [build_id_index, hid, htr]
            have hself : idKeyOf (.mk t a cs) = some v := by
              rw [hkey, hid]
              simp [htr]
            rw [hstep, dget_build_id_index_children (dictSet m v (.mk t a cs)) cs k,
              dget_dictSet, hpre]
            by_cases hk : k = v
            · subst hk
              simp only [List.filter, hself, if_pos rfl]
              have : ((some k == some k)) = true := by simp
              simp only [this]
              rw [pyLast_cons, oElse_assoc]
              simp [oElse]
            · have hne : ¬ ((some v : Option AttrVal) == some k) = true := by
                simp [beq_iff_eq]
                exact fun hh => hk hh.symm
              simp only [List.filter, hself, if_neg hk, hne]
          · have htr2 : truthy v = false := by
              cases hb : truthy v
              · rfl
              · exact absurd hb htr
            have hstep : build_id_index m (.mk t a cs)
                = build_id_index_children m cs := by
              simp [build_id_index, hid, htr2]
            have hdrop : idKeyOf (.mk t a cs) = none := by
              rw [hkey, hid]
              simp [htr2]
            rw [hstep, dget_build_id_index_children m cs k, hpre]
            simp [List.filter, hdrop]

theorem dget_build_id_index_children (m : List (AttrVal × DOMNode))
    (cs : Children) (k : AttrVal) :
    dget (build_id_index_children m cs) k =
      oElse (pyLast ((preorderC cs).filter (fun x => idKeyOf x == some k)))
        (dget m k) := by
  match cs with
  | .nil => simp [build_id_index_children, preorderC, pyLast, oElse]
  | .consN c rest =>
      show dget (build_id_index_children (build_id_index m c) rest) k = _
      rw [dget_build_id_index_children (build_id_index m c) rest k,
        dget_build_id_index m c k]
      have hsplit : preorderC (.consN c rest) = preorder c ++ preorderC rest := rfl
      rw [hsplit, List.filter_append, pyLast_append, oElse_assoc]
  | .consT s rest =>
      show dget (build_id_index_children m rest) k = _
      rw [dget_build_id_index_children m rest k]
      simp [preorderC]
end

/-- Appending one node under every token of a token list extends a key's hit
list by one copy of the node per occurrence of the key in the tokens. -/
theorem dget_foldl_mapAppendAt (ts : List String)
    (m : List (String × List DOMNode)) (v : DOMNode) (k : String) :
    dget (ts.foldl (fun acc tok => mapAppendAt acc tok v) m) k =
      mergeOpt (dget m k) (List.replicate (ts.count k) v) := by
  induction ts generalizing m with
  | nil => simp [mergeOpt_nil]
  | cons t ts ih =>
      simp only [List.foldl_cons]
      rw [ih, dget_mapAppendAt]
      by_cases hk : k = t
      · subst hk
        have hmerge : (some ((dget m k).getD [] ++ [v]))
            = mergeOpt (dget m k) [v] := by
          cases dget m k <;> simp [mergeOpt]
        rw [if_pos rfl, hmerge, mergeOpt_assoc]
        simp [List.count_cons, List.replicate_succ]
      · have hk2 : ¬ t = k := fun hh => hk hh.symm
        rw [if_neg hk]
        simp [List.count_cons, hk2]

mutual
/-- The class map built by the preorder traversal holds, at every token, the
prior hits extended by the subtree nodes, each once per occurrence of the
token in its class-token list, in document order. -/
theorem dget_build_class_index (m : List (String × List DOMNode)) (n : DOMNode)
    (k : String) :
    dget (build_class_index m n) k =
      mergeOpt (dget m k) (classOccs (preorder n) k) := by
  match n with
  | .mk t a cs =>
      show dget (build_class_index_children
        ((classTokens (.mk t a cs)).foldl
          (fun acc tok => mapAppendAt acc tok (.mk t a cs)) m) cs) k = _
      rw [dget_build_class_index_children _ cs k, dget_foldl_mapAppendAt,
        mergeOpt_assoc]
      have hocc : classOccs (preorder (.mk t a cs)) k
          = List.replicate ((classTokens (.mk t a cs)).count k) (DOMNode.mk t a cs)
            ++ classOccs (preorderC cs) k := by
        simp [classOccs, preorder]
      rw [hocc]

theorem dget_build_class_index_children (m : List (String × List DOMNode))
    (cs : Children) (k : String) :
    dget (build_class_index_children m cs) k =
      mergeOpt (dget m k) (classOccs (preorderC cs) k) := by
  match cs with
  | .nil => simp [build_class_index_children, preorderC, classOccs, mergeOpt_nil]
  | .consN c rest =>
      show dget (build_class_index_children (build_class_index m c) rest) k = _
      rw [dget_build_class_index_children (build_class_index m c) rest k,
        dget_build_class_index m c k, mergeOpt_assoc]
      have hsplit : classOccs (preorderC (.consN c rest)) k
          = classOccs (preorder c) k ++ classOccs (preorderC rest) k := by
        simp [classOccs, preorderC]
      rw [hsplit]
  | .consT s rest =>
      show dget (build_class_index_children m rest) k = _
      rw [dget_build_class_index_children m rest k]
      simp [preorderC]
end

/-! ### Claim theorems: the lazy index engine (C3, C4, C7, C8) -/

/-- C3: for every node `n` and tag name `t`, `n.get_by_tag(t)` returns exactly
the nodes in the subtree of `n` (including `n` itself when its own tag is `t`)
whose tag equals `t`, listed in document order, and returns an absent result
when no such node exists. -/
theorem claim3_get_by_tag (n : DOMNode) (t : String) :
    ((NodeState.fresh n).get_by_tag t).1
      = toOpt ((preorder n).filter (fun x => x.tag == t)) := by
  simp [NodeState.get_by_tag, NodeState.fresh, dget_build_tag_index, dget,
    mergeOpt_none_eq_toOpt]

/-- A node whose `id` attribute is the empty string. -/
def emptyIdNode : DOMNode := .mk "p" [("id", .s "")] .nil

/-- C4 counterexample: `emptyIdNode` has an `id` attribute equal to `""`, yet
`get_by_id("")` returns an absent result — the builder skips falsy id values
(`if id_attr:`), so the claimed "returns a node iff some node in scope has an
`id` attribute equal to x" fails at `x = ""`. -/
theorem claim4_counterexample :
    ((NodeState.fresh emptyIdNode).get_by_id "").1 = none
      ∧ dget emptyIdNode.attrs "id" = some (.s "") := ⟨rfl, rfl⟩

/-- All truthy id attributes in the subtree are strings (a truthy list id
would be an unhashable dict key, raising `TypeError` in Python; the model is
only claimed faithful away from that corner). -/
def idsHashable (n : DOMNode) : Bool :=
  (preorder n).all (fun x =>
    match idAttr x with
    | some (.lst l) => l.isEmpty
    | _ => true)

/-- C4 amended: `get_by_id(x)` returns a node iff some node in scope has a
truthy (non-empty) `id` attribute equal to `x`, and on duplicates the last
matching node in document order wins (dict writes during the preorder
traversal, last write wins) — stated as: the result is the last document-order
node whose truthy id equals `x`. -/
theorem claim4_get_by_id_amended (n : DOMNode) (x : String)
    (h : idsHashable n = true) :
    ((NodeState.fresh n).get_by_id x).1
      = pyLast ((preorder n).filter (fun m => idKeyOf m == some (AttrVal.s x))) := by
  have hh := h
  simp [NodeState.get_by_id, NodeState.fresh, dget_build_id_index, dget,
    oElse_none_right]

/-- Two sibling nodes with the same id `"a"`. -/
def dupIdTree : DOMNode :=
  .mk "div" [] (.consN (.mk "p" [("id", .s "a")] .nil)
    (.consN (.mk "q" [("id", .s "a")] .nil) .nil))

/-- C4 witness: the amended theorem applied to a concrete tree with a
duplicated id; the hypothesis holds by evaluation. -/
theorem claim4_witness :
    idsHashable dupIdTree = true
      ∧ ((NodeState.fresh dupIdTree).get_by_id "a").1
          = pyLast ((preorder dupIdTree).filter
              (fun m => idKeyOf m == some (AttrVal.s "a"))) :=
  ⟨by decide, claim4_get_by_id_amended dupIdTree "a" (by decide)⟩

/-- A node whose `class` attribute repeats the token `x`. -/
def dupClassNode : DOMNode := .mk "p" [("class", .s "x x")] .nil

/-- C7 counterexample: a node with `class="x x"` is appended to the index
entry of `"x"` once per token occurrence, not once per distinct token, so
`get_by_class_name("x")` lists the node twice. -/
theorem claim7_counterexample :
    ((NodeState.fresh dupClassNode).get_by_class_name "x").1
        = some [dupClassNode, dupClassNode]
      ∧ ¬ ([dupClassNode, dupClassNode] : List DOMNode).Nodup := by
  refine ⟨rfl, fun h => ?_⟩
  exact (List.nodup_cons.mp h).1 (List.mem_singleton.mpr rfl)

/-- C7 amended: building the class index tokenizes a string `class` attribute
on whitespace (a pre-supplied token list is used as-is), and a node is indexed
once per token OCCURRENCE: `get_by_class_name(c)` lists each subtree node, in
document order, repeated as many times as `c` occurs among its tokens (so a
node with a repeated token does appear more than once). -/
theorem claim7_class_index_amended (n : DOMNode) (c : String) :
    ((NodeState.fresh n).get_by_class_name c).1
      = toOpt (classOccs (preorder n) c) := by
  simp [NodeState.get_by_class_name, NodeState.fresh, dget_build_class_index,
    dget, mergeOpt_none_eq_toOpt]

/-- C8: for every owner (node or document) and every index kind (tag, id,
class): the first query builds the index and sets the built flag; every
subsequent query of that kind is answered from the cached map with the state
unchanged; and a child appended after the build does not change subsequent
query results. -/
theorem claim8_index_caching (n : DOMNode) (t u : String) (c : DOMNode)
    (root : DOMNode) (title : Option String) :
    (((NodeState.fresh n).get_by_tag t).2.has_tag_index = true
      ∧ ((NodeState.fresh n).get_by_tag t).2.get_by_tag u
          = (dget ((NodeState.fresh n).get_by_tag t).2.tag_to_node_map u,
             ((NodeState.fresh n).get_by_tag t).2)
      ∧ ((((NodeState.fresh n).get_by_tag t).2.append_child_node c).get_by_tag u).1
          = (((NodeState.fresh n).get_by_tag t).2.get_by_tag u).1)
    ∧ (((NodeState.fresh n).get_by_id t).2.has_id_index = true
      ∧ ((NodeState.fresh n).get_by_id t).2.get_by_id u
          = (dget ((NodeState.fresh n).get_by_id t).2.id_to_node_map (.s u),
             ((NodeState.fresh n).get_by_id t).2)
      ∧ ((((NodeState.fresh n).get_by_id t).2.append_child_node c).get_by_id u).1
          = (((NodeState.fresh n).get_by_id t).2.get_by_id u).1)
    ∧ (((NodeState.fresh n).get_by_class_name t).2.has_class_index = true
      ∧ ((NodeState.fresh n).get_by_class_name t).2.get_by_class_name u
          = (dget ((NodeState.fresh n).get_by_class_name t).2.class_to_node_map u,
             ((NodeState.fresh n).get_by_class_name t).2)
      ∧ ((((NodeState.fresh n).get_by_class_name t).2.append_child_node c).get_by_class_name u).1
          = (((NodeState.fresh n).get_by_class_name t).2.get_by_class_name u).1)
    ∧ (((DOMDocument.fresh root title).get_by_tag t).2.has_tag_index = true
      ∧ ((DOMDocument.fresh root title).get_by_tag t).2.get_by_tag u
          = (dget ((DOMDocument.fresh root title).get_by_tag t).2.tag_to_node_map u,
             ((DOMDocument.fresh root title).get_by_tag t).2)
      ∧ ((((DOMDocument.fresh root title).get_by_tag t).2.append_child_node c).get_by_tag u).1
          = (((DOMDocument.fresh root title).get_by_tag t).2.get_by_tag u).1)
    ∧ (((DOMDocument.fresh root title).get_by_id t).2.has_id_index = true
      ∧ ((DOMDocument.fresh root title).get_by_id t).2.get_by_id u
          = (dget ((DOMDocument.fresh root title).get_by_id t).2.id_to_node_map (.s u),
             ((DOMDocument.fresh root title).get_by_id t).2)
      ∧ ((((DOMDocument.fresh root title).get_by_id t).2.append_child_node c).get_by_id u).1
          = (((DOMDocument.fresh root title).get_by_id t).2.get_by_id u).1)
    ∧ (((DOMDocument.fresh root title).get_by_class_name t).2.has_class_index = true
      ∧ ((DOMDocument.fresh root title).get_by_class_name t).2.get_by_class_name u
          = (dget ((DOMDocument.fresh root title).get_by_class_name t).2.class_to_node_map u,
             ((DOMDocument.fresh root title).get_by_class_name t).2)
      ∧ ((((DOMDocument.fresh root title).get_by_class_name t).2.append_child_node c).get_by_class_name u).1
          = (((DOMDocument.fresh root title).get_by_class_name t).2.get_by_class_name u).1) :=
  ⟨⟨rfl, rfl, rfl⟩, ⟨rfl, rfl, rfl⟩, ⟨rfl, rfl, rfl⟩,
   ⟨rfl, rfl, rfl⟩, ⟨rfl, rfl, rfl⟩, ⟨rfl, rfl, rfl⟩⟩

/-! ### Claim theorems: the tree builder (C1, C2, C5, C6, C9, C10) -/

/-- C1 (code-bug exhibit): the claim says `parse_document` never surfaces an
error for any markup. In the code, the first start-tag event evaluates
`tag not in VOID_TAGS` with `VOID_TAGS` undefined (the module defines
`_VOID_TAGS`), so parsing `"<p>"` raises `NameError` to the caller. -/
theorem claim1_parse_document_raises :
    parse_document [HEvent.startTag "p" []]
      = .error (.nameError "VOID_TAGS") := rfl

/-- C2 (code-bug exhibit): the claim says a void tag such as `br` is appended
as a childless leaf and never pushed. In the code the void-tag check itself
raises `NameError` (undefined `VOID_TAGS`), so parsing `"<br>"` fails before
any tree is returned. -/
theorem claim2_void_tag_raises :
    "br" ∈ _VOID_TAGS
      ∧ accumulate [HEvent.startTag "br" []]
          = .error (.nameError "VOID_TAGS") := ⟨by decide, rfl⟩

/-- C5 (code-bug exhibit): the claim says the first text inside the first
`title` element becomes the document title. The `title` start tag already
raises `NameError` (undefined `VOID_TAGS`), so parsing
`"<title>Hi</title>"` never yields a document or a title. -/
theorem claim5_title_raises :
    accumulate [HEvent.startTag "title" [], HEvent.data "Hi",
        HEvent.endTag "title"]
      = .error (.nameError "VOID_TAGS") := rfl

/-- The only trees the current code can produce: a root with text children
(inputs with no start tag). -/
def helloRoot : DOMNode := .mk "DOCUMENT_ROOT" [] (.consT "hello" .nil)

/-- C9 (code-bug exhibit): the claim says render-then-reparse preserves the
tree shape. Parsing `"hello"` succeeds and renders to
`"<DOCUMENT_ROOT>\n  hello\n</DOCUMENT_ROOT>"`, but re-parsing that text hits
a start-tag event (`document_root`, lowercased by the tokenizer) and raises
`NameError` (undefined `VOID_TAGS`): no round trip is possible. -/
theorem claim9_roundtrip_raises :
    accumulate [HEvent.data "hello"] = .ok (helloRoot, none)
      ∧ DOMNode._render helloRoot 0
          = "<DOCUMENT_ROOT>\n  hello\n</DOCUMENT_ROOT>"
      ∧ accumulate [HEvent.startTag "document_root" [],
          HEvent.data "\n  hello\n", HEvent.endTag "document_root"]
          = .error (.nameError "VOID_TAGS") := ⟨rfl, by decide, rfl⟩

/-- C6: with the open-element stack split as `top :: rest`, an end tag whose
name differs from the top's tag leaves the whole parser state (stack, tree,
title) unchanged and raises nothing, while a matching end tag pops exactly
that one element (the stack shrinks by one). -/
theorem claim6_endtag_effect (st : PState) (top : Frame) (rest : List Frame)
    (tag : String) (h : st.stack = top :: rest) :
    (tag ≠ top.tag → handle_endtag st tag = .ok st)
    ∧ (tag = top.tag →
        handle_endtag st tag = .ok (popFrame st top rest)
        ∧ (popFrame st top rest).stack.length + 1 = st.stack.length) := by
  constructor
  · intro hne
    simp [handle_endtag, h, hne]
  · intro heq
    refine ⟨by simp [handle_endtag, h, heq], ?_⟩
    cases rest with
    | nil => simp [popFrame, h]
    | cons p ps => simp [popFrame, h]

/-- A parser state with an open `a` element above the synthetic root. -/
def endtagDemo : PState :=
  ⟨[⟨"a", [], .nil⟩, ⟨"DOCUMENT_ROOT", [], .nil⟩], none, false⟩

/-- C6 witness: the theorem applied to a concrete state, for a non-matching
and a matching end tag. -/
theorem claim6_witness :
    handle_endtag endtagDemo "b" = .ok endtagDemo
    ∧ handle_endtag endtagDemo "a"
        = .ok (popFrame endtagDemo ⟨"a", [], .nil⟩
            [⟨"DOCUMENT_ROOT", [], .nil⟩]) :=
  ⟨(claim6_endtag_effect endtagDemo ⟨"a", [], .nil⟩
      [⟨"DOCUMENT_ROOT", [], .nil⟩] "b" rfl).1 (by decide),
   ((claim6_endtag_effect endtagDemo ⟨"a", [], .nil⟩
      [⟨"DOCUMENT_ROOT", [], .nil⟩] "a" rfl).2 rfl).1⟩

/-- Lowercasing as performed by the tokenizer on tag names. -/
def strLower (s : String) : String :=
  String.mk (s.data.map Char.toLower)

/-- The tokenizer guarantee relevant to the synthetic root: every end-tag
name in the event stream is already lowercase. -/
def lowerEndTags (evs : List HEvent) : Bool :=
  evs.all (fun e =>
    match e with
    | .endTag t => strLower t == t
    | _ => true)

/-- The safety invariant of the builder state: the bottom-most stack frame is
the synthetic root (tag `DOCUMENT_ROOT`) and the root has never been popped. -/
def RootAtBottom (st : PState) : Prop :=
  (∃ fs f, st.stack = fs ++ [f] ∧ f.tag = "DOCUMENT_ROOT")
    ∧ st.rootPopped = false

theorem root_tag_not_lower (t : String) (h : strLower t = t) :
    t ≠ "DOCUMENT_ROOT" := by
  intro hroot
  subst hroot
  exact absurd h (by decide)

/-- Replacing the top frame by one with the same tag preserves the
root-at-bottom shape of the stack. -/
theorem bottom_replace (top g : Frame) (rest : List Frame)
    (htag : g.tag = top.tag)
    (h : ∃ fs f, top :: rest = fs ++ [f] ∧ f.tag = "DOCUMENT_ROOT") :
    ∃ fs f, g :: rest = fs ++ [f] ∧ f.tag = "DOCUMENT_ROOT" := by
  obtain ⟨fs, f, heq, hf⟩ := h
  cases fs with
  | nil =>
      simp at heq
      obtain ⟨h1, h2⟩ := heq
      subst h2
      exact ⟨[], g, rfl, by rw [htag, h1, hf]⟩
  | cons x fs2 =>
      simp at heq
      obtain ⟨h1, h2⟩ := heq
      exact ⟨g :: fs2, f, by rw [List.cons_append, h2], hf⟩

/-- One successful builder step preserves the root-at-bottom invariant,
provided any end-tag name involved is lowercase. -/
theorem stepEvent_inv (st st' : PState) (e : HEvent)
    (hl : (match e with
           | HEvent.endTag t => strLower t == t
           | _ => true) = true)
    (hs : stepEvent st e = .ok st')
    (hinv : RootAtBottom st) : RootAtBottom st' := by
  obtain ⟨⟨fs, f, hstack, hf⟩, hrp⟩ := hinv
  cases e with
  | startTag t a =>
      exfalso
      cases h2 : st.stack with
      | nil => simp [stepEvent, handle_starttag, h2] at hs
      | cons x xs => simp [stepEvent, handle_starttag, h2] at hs
  | endTag t =>
      have hlow : strLower t = t := by simpa using hl
      have hs2 : handle_endtag st t = .ok st' := hs
      cases hstk : st.stack with
      | nil =>
          rw [hstack] at hstk
          simp at hstk
      | cons top rest =>
          by_cases he : t = top.tag
          · have hpop : handle_endtag st t = .ok (popFrame st top rest) := by
              simp [handle_endtag, hstk, he]
            rw [hpop] at hs2
            have hst' : st' = popFrame st top rest := by
              cases hs2
              rfl
            subst hst'
            cases rest with
            | nil =>
                exfalso
                have hft : f = top := by
                  rw [hstack] at hstk
                  cases fs with
                  | nil => simpa using hstk
                  | cons x fs2 => simp at hstk
                have : t = "DOCUMENT_ROOT" := by rw [he, ← hft, hf]
                exact root_tag_not_lower t hlow this
            | cons p ps =>
                refine ⟨?_, by simpa [popFrame] using hrp⟩
                have hshape : ∃ gs g, p :: ps = gs ++ [g]
                    ∧ g.tag = "DOCUMENT_ROOT" := by
                  rw [hstack] at hstk
                  cases fs with
                  | nil => simp at hstk
                  | cons x fs2 =>
                      simp at hstk
                      exact ⟨fs2, f, hstk.2.symm, hf⟩
                show ∃ gs g, ({ p with children := p.children.snocN top.finalize }
                    :: ps) = gs ++ [g] ∧ g.tag = "DOCUMENT_ROOT"
                exact bottom_replace p
                  { p with children := p.children.snocN top.finalize }
                  ps rfl hshape
          · have hid : handle_endtag st t = .ok st := by
              simp [handle_endtag, hstk, he]
            rw [hid] at hs2
            have hst' : st = st' := by
              cases hs2
              rfl
            subst hst'
            exact ⟨⟨fs, f, hstack, hf⟩, hrp⟩
  | data s =>
      have hs2 : handle_data st s = st' := by
        simpa [stepEvent] using hs
      cases hstk : st.stack with
      | nil =>
          rw [hstack] at hstk
          simp at hstk
      | cons top rest =>
          rw [handle_data, hstk] at hs2
          subst hs2
          refine ⟨?_, hrp⟩
          have hshape : ∃ gs g, top :: rest = gs ++ [g]
              ∧ g.tag = "DOCUMENT_ROOT" := by
            rw [← hstk, hstack]
            exact ⟨fs, f, rfl, hf⟩
          exact bottom_replace top { top with children := top.children.snocT s }
            rest rfl hshape
  | comment s =>
      cases hs
      exact ⟨⟨fs, f, hstack, hf⟩, hrp⟩
  | entityref s =>
      cases hs
      exact ⟨⟨fs, f, hstack, hf⟩, hrp⟩
  | charref s =>
      cases hs
      exact ⟨⟨fs, f, hstack, hf⟩, hrp⟩
  | decl s =>
      cases hs
      exact ⟨⟨fs, f, hstack, hf⟩, hrp⟩

/-- Running any lowercase-end-tag event list preserves the invariant. -/
theorem runEvents_inv (evs : List HEvent) (st st' : PState)
    (hl : lowerEndTags evs = true)
    (hr : runEvents st evs = .ok st')
    (hinv : RootAtBottom st) : RootAtBottom st' := by
  induction evs generalizing st with
  | nil =>
      have : st = st' := by
        cases hr
        rfl
      subst this
      exact hinv
  | cons e rest ih =>
      rw [lowerEndTags, List.all_cons, Bool.and_eq_true] at hl
      have hl2 : lowerEndTags rest = true := hl.2
      cases hstep : stepEvent st e with
      | error err =>
          rw [runEvents, hstep] at hr
          cases hr
      | ok st2 =>
          rw [runEvents, hstep] at hr
          exact ih st2 hl2 hr (stepEvent_inv st st2 e hl.1 hstep hinv)

theorem initPS_inv : RootAtBottom initPS :=
  ⟨⟨[], ⟨"DOCUMENT_ROOT", [], .nil⟩, rfl, rfl⟩, rfl⟩

/-- C10: when every end-tag name is lowercase (the tokenizer guarantee), no
end tag can match the synthetic root tag `DOCUMENT_ROOT`, so after every
successfully processed prefix of the event stream the stack is non-empty with
the original root as its bottom-most frame and the root never popped; in
particular, whenever feeding the whole stream succeeds, the terminal internal
root assertion passes and `accumulate` returns a result. -/
theorem claim10_root_never_popped (evs : List HEvent)
    (h : lowerEndTags evs = true) :
    (∀ p q st, evs = p ++ q → runEvents initPS p = .ok st →
        st.stack ≠ []
        ∧ Option.map Frame.tag (pyLast st.stack) = some "DOCUMENT_ROOT"
        ∧ st.rootPopped = false)
    ∧ (∀ st, runEvents initPS evs = .ok st →
        ∃ r, accumulate evs = .ok r) := by
  constructor
  · intro p q st hsplit hrun
    have hlp : lowerEndTags p = true := by
      subst hsplit
      rw [lowerEndTags, List.all_append, Bool.and_eq_true] at h
      exact h.1
    obtain ⟨⟨fs, f, hstack, hf⟩, hrp⟩ :=
      runEvents_inv p initPS st hlp hrun initPS_inv
    refine ⟨by simp [hstack], ?_, hrp⟩
    rw [hstack, pyLast_append]
    simp [pyLast, oElse, hf]
  · intro st hrun
    obtain ⟨⟨fs, f, hstack, hf⟩, hrp⟩ :=
      runEvents_inv evs initPS st h hrun initPS_inv
    cases hstk : st.stack with
    | nil =>
        rw [hstack] at hstk
        simp at hstk
    | cons top rest =>
        exact ⟨(collapse top rest, st.title), by simp [accumulate, hrun, hstk, hrp]⟩

/-- A concrete lowercase event stream: an unmatched end tag followed by text. -/
def demoEvents : List HEvent :=
  [HEvent.endTag "p", HEvent.data "x", HEvent.comment "c"]

/-- C10 witness: the theorem applied to `demoEvents`, whose end-tag names are
lowercase by evaluation; the whole run succeeds and `accumulate` returns. -/
theorem claim10_witness :
    lowerEndTags demoEvents = true
    ∧ ∃ r, accumulate demoEvents = .ok r :=
  ⟨by decide,
   (claim10_root_never_popped demoEvents (by decide)).2
     ⟨[⟨"DOCUMENT_ROOT", [], .consT "x" .nil⟩], none, false⟩ rfl⟩

end Bowl
